import Mathlib

/-!
Verification development for the RAMCloud master node core: the packed
hash-table entry, the client-visible object operations with reject rules,
the crash-recovery pipeline (segment replay and the fetch scheduler), and
the RPC service manager.  Components whose implementation files are not in
the repository snapshot are modelled from the specification and checked
against the repository's unit tests.
-/

namespace RAMCloud

/-- Wire-visible status taxonomy (spec section 6). -/
inductive Status where
  | OK
  | RETRY
  | TABLE_DOESNT_EXIST
  | OBJECT_DOESNT_EXIST
  | OBJECT_EXISTS
  | WRONG_VERSION
  | MESSAGE_TOO_SHORT
  | SERVICE_NOT_AVAILABLE
  | SEGMENT_RECOVERY_FAILED
  | INTERNAL_ERROR
  deriving DecidableEq, Repr

/-- Modelled from the spec: the decoded form of a 64-bit hash-table slot
(`HashTable::Entry::UnpackedEntry`; `HashTable.h` is not in the snapshot,
only `HashTableTest.cc`).  `hash` is the 16-bit fragment, `chain` the tag
bit, `ptr` the 47-bit pointer. -/
structure UnpackedEntry where
  hash : Nat
  chain : Bool
  ptr : Nat
  deriving DecidableEq, Repr

/-- Modelled from the spec: `HashTable::Entry::pack`.  The top 17 bits of
the raw word encode `(hash<<1)|chain` and the low 47 bits the pointer; the
result is a 64-bit word. -/
def pack (hash : Nat) (chain : Bool) (ptr : Nat) : Nat :=
  ((hash * 2 + (if chain then 1 else 0)) * 2 ^ 47 + ptr) % 2 ^ 64

/-- Modelled from the spec: `HashTable::Entry::unpack`, the inverse
decoding of a raw 64-bit slot word. -/
def unpack (value : Nat) : UnpackedEntry :=
  { hash := value / 2 ^ 48
    chain := value / 2 ^ 47 % 2 = 1
    ptr := value % 2 ^ 47 }

/-- Modelled from the spec: a hash-table slot, a single 64-bit word. -/
structure Entry where
  value : Nat
  deriving DecidableEq, Repr

/-- Modelled from the spec: `Entry::clear` zeroes the slot. -/
def Entry.clear (_e : Entry) : Entry := ⟨0⟩

/-- Modelled from the spec: `Entry::setLogPointer` stores a log-pointer
slot (`chain = 0`). -/
def Entry.setLogPointer (_e : Entry) (hash : Nat) (ptr : Nat) : Entry :=
  ⟨pack hash false ptr⟩

/-- Modelled from the spec: `Entry::setChainPointer` stores an overflow
chain pointer (`hash = 0`, `chain = 1`). -/
def Entry.setChainPointer (_e : Entry) (ptr : Nat) : Entry :=
  ⟨pack 0 true ptr⟩

/-- Modelled from the spec: `Entry::isAvailable` (the spec's `isEmpty`)
holds when the underlying word is zero (spec section 8). -/
def Entry.isAvailable (e : Entry) : Bool := e.value == 0

/-- Modelled from the spec: `Entry::isChainLink` reports the decoded chain
bit. -/
def Entry.isChainLink (e : Entry) : Bool := (unpack e.value).chain

/-- Modelled from the spec: `HashTable::PerfDistribution::BIN_WIDTH`,
checked to be 10 by `HashTableTest.cc`. -/
def BIN_WIDTH : Nat := 10

/-- Modelled from the spec: `HashTable::PerfDistribution::NBINS`; the spec
leaves the count implementation-chosen (at least 1024). -/
def NBINS : Nat := 5000

/-- Modelled from the spec: `HashTable::PerfDistribution`, the lookup-time
histogram.  `bins` maps a bin index to its counter. -/
structure PerfDistribution where
  binOverflows : Nat
  min : Nat
  max : Nat
  bins : Nat → Nat

/-- Modelled from the spec: a freshly constructed `PerfDistribution` has
`min = ~0UL`, `max = 0`, and all counters zero (`test_constructor`). -/
def PerfDistribution.init : PerfDistribution :=
  { binOverflows := 0, min := 2 ^ 64 - 1, max := 0, bins := fun _ => 0 }

/-- Modelled from the spec: `PerfDistribution::storeSample`.  The bin is
`s / BIN_WIDTH`; an out-of-range bin bumps `binOverflows`; `min` and `max`
are updated in both cases. -/
def PerfDistribution.storeSample (d : PerfDistribution) (s : Nat) :
    PerfDistribution :=
  let bin := s / BIN_WIDTH
  let d1 :=
    if NBINS ≤ bin then
      { d with binOverflows := d.binOverflows + 1 }
    else
      { d with bins := fun i => if i = bin then d.bins i + 1 else d.bins i }
  { d1 with min := Nat.min d1.min s, max := Nat.max d1.max s }

/-- RejectRules predicate flags, from spec section 6 and
`MasterServiceTest.cc` (`exists` is spelled `objectExists` here because
`exists` is reserved in Lean). -/
structure RejectRules where
  givenVersion : Nat
  doesntExist : Bool
  objectExists : Bool
  versionLeGiven : Bool
  versionNeGiven : Bool
  deriving DecidableEq, Repr

/-- Default rules: reject nothing (`RamCloudClient.cc`). -/
def defaultRejectRules : RejectRules :=
  { givenVersion := 0, doesntExist := false, objectExists := false
    versionLeGiven := false, versionNeGiven := false }

/-- Reserved sentinel version returned when no live object was read or
created (spec section 6). -/
def VERSION_NONEXISTENT : Nat := 0

/-- Modelled from the spec: `MasterService::rejectOperation`
(`MasterService.cc` is not in the snapshot; behaviour pinned by
`test_rejectOperation`).  Returns `some status` when the operation must be
aborted, `none` when it may proceed.  `version` is the live version of the
object, or `VERSION_NONEXISTENT` when the object is absent. -/
def rejectOperation (rules : RejectRules) (version : Nat) : Option Status :=
  if version = VERSION_NONEXISTENT then
    if rules.doesntExist then some .OBJECT_DOESNT_EXIST else none
  else
    if rules.objectExists then some .OBJECT_EXISTS
    else if rules.versionLeGiven ∧ version ≤ rules.givenVersion then
      some .WRONG_VERSION
    else if rules.versionNeGiven ∧ version ≠ rules.givenVersion then
      some .WRONG_VERSION
    else none

/-- Object keys are `(tableId, objectId)` pairs. -/
abbrev Key := Nat × Nat

/-- Object payloads, abstracted to a number. -/
abbrev Value := Nat

/-- Modelled from the spec: the visible state of one key on the master.
`dead v` records the tombstone left by removing a version-`v` object. -/
inductive KeyState where
  | free
  | live (version : Nat) (val : Value)
  | dead (version : Nat)
  deriving DecidableEq, Repr

/-- The stored version of a key; 0 when the key has no history. -/
def KeyState.ver : KeyState → Nat
  | .free => 0
  | .live v _ => v
  | .dead v => v

/-- Modelled from the spec: the master's object store.  `nextVersion` is
the table's version allocator used for keys with no history
(`test_create_basics` and `test_write` pin versions 1, 2, 3, ...). -/
structure MasterState where
  objects : Key → KeyState
  nextVersion : Nat

/-- A freshly booted master: no objects, versions start at 1. -/
def initialMaster : MasterState :=
  { objects := fun _ => .free, nextVersion := 1 }

/-- Replace the state of one key. -/
def MasterState.setKey (s : MasterState) (k : Key) (st : KeyState) :
    Key → KeyState :=
  fun k2 => if k2 = k then st else s.objects k2

/-- Modelled from the spec: the master's write path.  A new version is one
greater than the stored version of the key (live object or tombstone), or
the table's `nextVersion` for a fresh key; reject rules see the live
version, `VERSION_NONEXISTENT` when no live object exists.  Returns the
new state, the status, and the version sent back to the client. -/
def writeOp (s : MasterState) (k : Key) (v : Value) (rules : RejectRules) :
    MasterState × Status × Nat :=
  match s.objects k with
  | .live ver _ =>
    match rejectOperation rules ver with
    | some st => (s, st, ver)
    | none =>
      ({ s with objects := s.setKey k (.live (ver + 1) v) }, .OK, ver + 1)
  | .dead ver =>
    match rejectOperation rules VERSION_NONEXISTENT with
    | some st => (s, st, VERSION_NONEXISTENT)
    | none =>
      ({ s with objects := s.setKey k (.live (ver + 1) v) }, .OK, ver + 1)
  | .free =>
    match rejectOperation rules VERSION_NONEXISTENT with
    | some st => (s, st, VERSION_NONEXISTENT)
    | none =>
      ({ objects := s.setKey k (.live s.nextVersion v)
         nextVersion := s.nextVersion + 1 }, .OK, s.nextVersion)

/-- Modelled from the spec: the master's read path.  Returns the status,
the version reported to the client, and the payload on success. -/
def readOp (s : MasterState) (k : Key) (rules : RejectRules) :
    Status × Nat × Option Value :=
  match s.objects k with
  | .live ver v =>
    match rejectOperation rules ver with
    | some st => (st, ver, none)
    | none => (.OK, ver, some v)
  | _ => (.OBJECT_DOESNT_EXIST, VERSION_NONEXISTENT, none)

/-- Modelled from the spec: the master's remove path.  Removing a live
object leaves a tombstone carrying its version; removing an absent key is
a no-op returning `VERSION_NONEXISTENT` (`test_remove_objectAlreadyDeleted`). -/
def removeOp (s : MasterState) (k : Key) (rules : RejectRules) :
    MasterState × Status × Nat :=
  match s.objects k with
  | .live ver _ =>
    match rejectOperation rules ver with
    | some st => (s, st, ver)
    | none => ({ s with objects := s.setKey k (.dead ver) }, .OK, ver)
  | _ =>
    match rejectOperation rules VERSION_NONEXISTENT with
    | some st => (s, st, VERSION_NONEXISTENT)
    | none => (s, .OK, VERSION_NONEXISTENT)

/-- A mutating client operation, for reasoning about operation traces. -/
inductive ClientOp where
  | write (k : Key) (v : Value) (rules : RejectRules)
  | remove (k : Key) (rules : RejectRules)
  deriving DecidableEq, Repr

/-- Run one client operation. -/
def masterStep (s : MasterState) : ClientOp → MasterState × Status × Nat
  | .write k v rules => writeOp s k v rules
  | .remove k rules => removeOp s k rules

/-- The versions returned by the successful writes to key `k` along a
trace of operations starting from `s`, in order. -/
def writeVersions (s : MasterState) : List ClientOp → Key → List Nat
  | [], _ => []
  | op :: rest, k =>
    let r := masterStep s op
    let tail := writeVersions r.1 rest k
    match op with
    | .write k2 _ _ => if k2 = k ∧ r.2.1 = Status.OK then r.2.2 :: tail else tail
    | _ => tail

/-- Modelled from the spec: what the recovery index (`objectMap`) holds
for a key during replay: a live object record or a tombstone record. -/
inductive RecEntry where
  | object (version : Nat) (val : Value)
  | tombstone (version : Nat)
  deriving DecidableEq, Repr

/-- The recovery index: key to present record, if any. -/
abbrev RecoveryMap := Key → Option RecEntry

/-- Modelled from the spec: one record framed in a recovery segment
(spec section 4.F; unknown record types are skipped). -/
inductive SegRecord where
  | object (tbl oid version : Nat) (val : Value)
  | tombstone (tbl oid version : Nat)
  | unknown
  deriving DecidableEq, Repr

/-- Modelled from the spec: applying one recovered record to the index
under the version-dominance table of spec section 4.C
(`MasterService::recoverSegment`; `MasterService.cc` is not in the
snapshot; behaviour pinned by `test_recoverSegment`).  A recovered object
replaces a present object or tombstone only when strictly newer; a
recovered tombstone replaces a present object when its version is greater
or equal, a present tombstone only when strictly newer; with nothing
present the record is inserted. -/
def applyRecovered (m : RecoveryMap) : SegRecord → RecoveryMap
  | .object tbl oid ver v =>
    match m (tbl, oid) with
    | some (.object pver _) =>
      if pver < ver then
        fun k => if k = (tbl, oid) then some (.object ver v) else m k
      else m
    | some (.tombstone pver) =>
      if pver < ver then
        fun k => if k = (tbl, oid) then some (.object ver v) else m k
      else m
    | none => fun k => if k = (tbl, oid) then some (.object ver v) else m k
  | .tombstone tbl oid ver =>
    match m (tbl, oid) with
    | some (.object pver _) =>
      if pver ≤ ver then
        fun k => if k = (tbl, oid) then some (.tombstone ver) else m k
      else m
    | some (.tombstone pver) =>
      if pver < ver then
        fun k => if k = (tbl, oid) then some (.tombstone ver) else m k
      else m
    | none => fun k => if k = (tbl, oid) then some (.tombstone ver) else m k
  | .unknown => m

/-- Modelled from the spec: `MasterService::recoverSegment` walks the
segment's records in order and applies each one. -/
def recoverSegment (m : RecoveryMap) (seg : List SegRecord) : RecoveryMap :=
  seg.foldl applyRecovered m

/-- Per-replica recovery request state recorded in each server-list entry
(`MasterService::REC_REQ_*`, visible in `MasterServiceTest.cc`). -/
inductive RecReq where
  | notStarted
  | waiting
  | failed
  | ok
  deriving DecidableEq, Repr

/-- Modelled from the spec: `MasterService::detectSegmentRecoveryFailure`
(`MasterService.cc` is not in the snapshot; behaviour pinned by
`test_detectSegmentRecoveryFailure_success` and `_failure`).  Each entry
is `(segmentId, status)`; the run succeeds when every entry's segment id
also appears with status `ok`, and otherwise fails with
`SEGMENT_RECOVERY_FAILED`.  The master and partition ids, used only for
the exception message, are elided. -/
def detectSegmentRecoveryFailure (backups : List (Nat × RecReq)) :
    Except Status Unit :=
  let okIds := (backups.filter fun e => e.2 == RecReq.ok).map Prod.fst
  if backups.all fun e => okIds.contains e.1 then .ok ()
  else .error .SEGMENT_RECOVERY_FAILED

/-- State machine of one replica-list entry during recovery fetch
scheduling (spec section 4.E). -/
inductive FetchStatus where
  | pending
  | inFlight
  | ok
  | failed
  deriving DecidableEq, Repr

/-- Modelled from the spec: one entry of the ordered replica list handed
to `MasterService::recover`.  `locatorOk` records whether a fetch against
the entry's backup locator can be started at all (the bad-locator policy
of spec section 4.E marks unreachable backups `FAILED` synchronously). -/
structure ReplicaEntry where
  segmentId : Nat
  locatorOk : Bool
  status : FetchStatus
  deriving DecidableEq, Repr

/-- Does some entry of the list hold status `ok` for this segment id? -/
def sidOK (l : List ReplicaEntry) (sid : Nat) : Bool :=
  l.any fun e => e.segmentId == sid && e.status == FetchStatus.ok

/-- Does some entry hold status `inFlight` or `ok` for this segment id? -/
def sidActive (l : List ReplicaEntry) (sid : Nat) : Bool :=
  l.any fun e =>
    e.segmentId == sid &&
      (e.status == FetchStatus.inFlight || e.status == FetchStatus.ok)

/-- Modelled from the spec: start one fetch after an RPC completion
(spec section 4.E step 4).  Walks the list left to right for the first
`PENDING` entry whose segment id `okCheck` does not report as recovered;
a candidate with a bad locator is marked `FAILED` and the walk continues
(bad-locator policy).  Returns the updated list and whether a fetch was
started.  `okCheck` is evaluated against the list as it was when the walk
began; the walk itself only turns `PENDING` entries `FAILED`, which never
changes any segment id's `ok` status. -/
def startFirst (okCheck : Nat → Bool) : List ReplicaEntry →
    List ReplicaEntry × Bool
  | [] => ([], false)
  | e :: rest =>
    if e.status = .pending ∧ okCheck e.segmentId = false then
      if e.locatorOk then ({ e with status := .inFlight } :: rest, true)
      else
        let r := startFirst okCheck rest
        ({ e with status := .failed } :: r.1, r.2)
    else
      let r := startFirst okCheck rest
      (e :: r.1, r.2)

/-- Modelled from the spec: the initial fan-out (spec section 4.E step 2).
Walks the replica list left to right; an entry is started when it is
`PENDING`, its segment id is not `IN_FLIGHT`/`OK` on any other entry
(`activeCheck` covers the list as the walk began; `started` accumulates
the segment ids started during the walk), and a channel is free; a
candidate with a bad locator is marked `FAILED` without consuming a
channel.  Stops once `slots` channels are in flight or the list ends. -/
def fanOutWalk (activeCheck : Nat → Bool) :
    List Nat → Nat → List ReplicaEntry → List ReplicaEntry
  | _, _, [] => []
  | started, slots, e :: rest =>
    if slots = 0 then e :: rest
    else if e.status = .pending ∧ activeCheck e.segmentId = false ∧
        e.segmentId ∉ started then
      if e.locatorOk then
        { e with status := .inFlight } ::
          fanOutWalk activeCheck (e.segmentId :: started) (slots - 1) rest
      else
        { e with status := .failed } :: fanOutWalk activeCheck started slots rest
    else e :: fanOutWalk activeCheck started slots rest

/-- The initial fan-out over a replica list with `K` fetch channels. -/
def initialFanOut (K : Nat) (l : List ReplicaEntry) : List ReplicaEntry :=
  fanOutWalk (sidActive l) [] K l

/-- Modelled from the spec: a fetch for `sid` succeeded; after replaying
the segment, every entry with that segment id is checked off the list as
`OK` without being fetched (transitive success, spec section 4.E step 4). -/
def completeSuccess (l : List ReplicaEntry) (sid : Nat) : List ReplicaEntry :=
  l.map fun e => if e.segmentId = sid then { e with status := .ok } else e

/-- Mark the first entry satisfying `p` as `FAILED`. -/
def markFirstFailed (p : ReplicaEntry → Bool) :
    List ReplicaEntry → List ReplicaEntry
  | [] => []
  | e :: rest =>
    if p e then { e with status := .failed } :: rest
    else e :: markFirstFailed p rest

/-- The list after the completed (in-flight) fetch for `sid` is marked
`FAILED`. -/
def markCompletedFailed (l : List ReplicaEntry) (sid : Nat) :
    List ReplicaEntry :=
  markFirstFailed
    (fun e => e.segmentId == sid && e.status == FetchStatus.inFlight) l

/-- Modelled from the spec: a fetch for `sid` failed; the completed entry
is marked `FAILED`, then the freed channel starts a fetch for the first
`PENDING` entry whose segment id is not `OK` elsewhere (spec section 4.E
step 4). -/
def completeFailure (l : List ReplicaEntry) (sid : Nat) : List ReplicaEntry :=
  (startFirst (sidOK (markCompletedFailed l sid)) (markCompletedFailed l sid)).1

/-- One observable transition of the recovery scheduler: some in-flight
fetch completes, successfully or not. -/
inductive SchedStep : List ReplicaEntry → List ReplicaEntry → Prop where
  | success (l : List ReplicaEntry) (sid : Nat)
      (h : ∃ e ∈ l, e.segmentId = sid ∧ e.status = FetchStatus.inFlight) :
      SchedStep l (completeSuccess l sid)
  | failure (l : List ReplicaEntry) (sid : Nat)
      (h : ∃ e ∈ l, e.segmentId = sid ∧ e.status = FetchStatus.inFlight) :
      SchedStep l (completeFailure l sid)

/-- States of the scheduler reachable from a fresh replica list (all
entries `PENDING`) via the initial fan-out and completion steps. -/
inductive SchedReachable (K : Nat) : List ReplicaEntry → Prop where
  | init (l : List ReplicaEntry) (h : ∀ e ∈ l, e.status = FetchStatus.pending) :
      SchedReachable K (initialFanOut K l)
  | step (l l' : List ReplicaEntry) (h : SchedReachable K l)
      (hs : SchedStep l l') : SchedReachable K l'

/-- The segment ids of the in-flight entries of a list, in order. -/
def inFlightSids (l : List ReplicaEntry) : List Nat :=
  (l.filter fun e => e.status == FetchStatus.inFlight).map ReplicaEntry.segmentId

/-- An incoming RPC as seen by `ServiceManager::handleRpc`
(`ServiceManager.cc`): `header` is the parsed `RpcRequestCommon`'s
`service` field, `none` when the request is too short to hold a header.
`payload` distinguishes requests. -/
structure Rpc where
  header : Option Nat
  payload : Nat
  deriving DecidableEq, Repr

/-- Per-service bookkeeping (`ServiceManager::ServiceInfo`): the
concurrency bound, the running count, and the FIFO overflow queue. -/
structure ServiceInfo where
  maxThreads : Nat
  requestsRunning : Nat
  waitingRpcs : List Rpc
  deriving DecidableEq, Repr

/-- Largest service type index (`MAX_SERVICE` from the header, which is
not in the snapshot; the theorems below do not depend on its value). -/
def MAX_SERVICE : Nat := 3

/-- The `ServiceManager` state mutated by `handleRpc`: the service table,
the registered-service count, the side queue used when no services are
registered, and the worker pools (worker ids only; thread internals are
out of scope here). -/
structure SMState where
  services : Nat → Option ServiceInfo
  serviceCount : Nat
  extraRpcs : List Rpc
  idleThreads : List Nat
  busyThreads : List Nat
  nextWorkerId : Nat

/-- A freshly constructed `ServiceManager`: empty table, zero count,
empty queues (the `ServiceManager` constructor). -/
def initServiceManager : SMState :=
  { services := fun _ => none, serviceCount := 0, extraRpcs := []
    idleThreads := [], busyThreads := [], nextWorkerId := 0 }

/-- `ServiceManager::addService`: install the service in its slot and
bump `serviceCount` (the caller asserts the slot was empty). -/
def addService (s : SMState) (svc : Nat) (info : ServiceInfo) : SMState :=
  { s with
    services := fun i => if i = svc then some info else s.services i
    serviceCount := s.serviceCount + 1 }

/-- What `handleRpc` did with the request: pushed it on `extraRpcs`
(no reply at all), replied immediately with an error status, queued it on
the service's waiting queue, or handed it to a worker. -/
inductive HandleResult where
  | queuedExtra
  | replied (st : Status)
  | queuedWaiting
  | handedOff (worker : Nat)
  deriving DecidableEq, Repr

/-- Replace one slot of the service table. -/
def SMState.setService (s : SMState) (svc : Nat) (info : ServiceInfo) :
    Nat → Option ServiceInfo :=
  fun i => if i = svc then some info else s.services i

/-- The branch of `ServiceManager::handleRpc` taken when the request has
no header, an out-of-range service, or an unregistered service: with no
services registered the RPC goes on `extraRpcs` and no reply is sent
(special case for testing); otherwise a `MESSAGE_TOO_SHORT` or
`SERVICE_NOT_AVAILABLE` reply is sent immediately. -/
def handleUnknownService (s : SMState) (rpc : Rpc) : SMState × HandleResult :=
  if s.serviceCount = 0 then
    ({ s with extraRpcs := s.extraRpcs ++ [rpc] }, .queuedExtra)
  else
    match rpc.header with
    | none => (s, .replied .MESSAGE_TOO_SHORT)
    | some _ => (s, .replied .SERVICE_NOT_AVAILABLE)

/-- `ServiceManager::handleRpc`, translated from `ServiceManager.cc`
lines 118-167.  A known service enforces its concurrency bound, then the
request is handed to an idle worker (popped from the back of the idle
list) or a freshly spawned one. -/
def handleRpc (s : SMState) (rpc : Rpc) : SMState × HandleResult :=
  match rpc.header with
  | none => handleUnknownService s rpc
  | some svc =>
    if MAX_SERVICE < svc then handleUnknownService s rpc
    else
      match s.services svc with
      | none => handleUnknownService s rpc
      | some info =>
        if info.maxThreads ≤ info.requestsRunning then
          ({ s with services :=
              s.setService svc { info with waitingRpcs := info.waitingRpcs ++ [rpc] } },
           .queuedWaiting)
        else
          let info1 := { info with requestsRunning := info.requestsRunning + 1 }
          let s1 := { s with services := s.setService svc info1 }
          match s1.idleThreads.getLast? with
          | none =>
            ({ s1 with
               nextWorkerId := s1.nextWorkerId + 1
               busyThreads := s1.busyThreads ++ [s1.nextWorkerId] },
             .handedOff s1.nextWorkerId)
          | some w =>
            ({ s1 with
               idleThreads := s1.idleThreads.dropLast
               busyThreads := s1.busyThreads ++ [w] }, .handedOff w)

/-- The well-formedness the `ServiceManager` constructor and `addService`
maintain: a zero `serviceCount` means the service table is empty. -/
def smWF (s : SMState) : Prop :=
  s.serviceCount = 0 → ∀ i, s.services i = none

/-! ## Packed-entry theorems -/

/-- Repacking the decoding of any 64-bit word returns the word. -/
theorem pack_unpack_eq (w : Nat) (hw : w < 2 ^ 64) :
    pack (unpack w).hash (unpack w).chain (unpack w).ptr = w := by
  simp only [pack, unpack]
  rcases Nat.mod_two_eq_zero_or_one (w / 2 ^ 47) with hc | hc <;>
    simp only [hc] <;> norm_num <;> omega

/-- C3: for every hash in `[0, 2^16)`, chain bit, and pointer in
`[0, 2^47)`, `unpack (pack h c p)` returns exactly `(h, c, p)`; and on
every 64-bit word `pack` inverts `unpack` into the legal domain, so
`pack`/`unpack` is a bijection between the legal domain and the 64-bit
entry words. -/
theorem pack_unpack_bijection :
    (∀ h c p, h < 2 ^ 16 → p < 2 ^ 47 → unpack (pack h c p) = ⟨h, c, p⟩) ∧
    (∀ w, w < 2 ^ 64 →
      pack (unpack w).hash (unpack w).chain (unpack w).ptr = w ∧
      (unpack w).hash < 2 ^ 16 ∧ (unpack w).ptr < 2 ^ 47) := by
  constructor
  · intro h c p hh hp
    cases c <;>
      simp only [pack, unpack, if_true, if_false, UnpackedEntry.mk.injEq,
        decide_eq_true_eq, decide_eq_false_iff_not, Bool.false_eq_true] <;>
      refine ⟨?_, ?_, ?_⟩ <;> omega
  · intro w hw
    refine ⟨pack_unpack_eq w hw, ?_, ?_⟩
    · show w / 2 ^ 48 < 2 ^ 16
      omega
    · show w % 2 ^ 47 < 2 ^ 47
      omega

/-- C3 witness: the round trip at the concrete legal triple
`(0xa257, false, 0x3cdeadbeef98)` used by `HashTableEntryTest::test_pack`. -/
theorem pack_unpack_bijection_witness :
    unpack (pack 0xa257 false 0x3cdeadbeef98) = ⟨0xa257, false, 0x3cdeadbeef98⟩ ∧
    pack (unpack 1).hash (unpack 1).chain (unpack 1).ptr = 1 :=
  ⟨pack_unpack_bijection.1 0xa257 false 0x3cdeadbeef98 (by decide) (by decide),
   (pack_unpack_bijection.2 1 (by decide)).1⟩

/-- C7: an entry is available (empty) exactly when its raw word is zero;
a chain link is never empty; `clear` produces the empty state (hash 0,
chain clear, null pointer); and `setChainPointer` or `setLogPointer` with
a nonzero pointer leaves the entry non-empty. -/
theorem entry_empty_invariants :
    (∀ e : Entry, e.isAvailable = true ↔ e.value = 0) ∧
    (∀ e : Entry, e.isChainLink = true → e.isAvailable = false) ∧
    (∀ e : Entry, (e.clear).value = 0 ∧ unpack (e.clear).value = ⟨0, false, 0⟩) ∧
    (∀ (e : Entry) (p : Nat), p ≠ 0 → p < 2 ^ 47 →
      (e.setChainPointer p).isAvailable = false) ∧
    (∀ (e : Entry) (h p : Nat), h < 2 ^ 16 → p ≠ 0 → p < 2 ^ 47 →
      (e.setLogPointer h p).isAvailable = false) := by
  refine ⟨?_, ?_, ?_, ?_, ?_⟩
  · intro e
    simp [Entry.isAvailable]
  · intro e hchain
    simp only [Entry.isChainLink, unpack, decide_eq_true_eq] at hchain
    simp only [Entry.isAvailable, beq_eq_false_iff_ne, ne_eq]
    omega
  · intro e
    constructor
    · rfl
    · simp only [Entry.clear, unpack, UnpackedEntry.mk.injEq]
      refine ⟨by omega, by simp, by omega⟩
  · intro e p hp0 hp
    simp only [Entry.setChainPointer, Entry.isAvailable, pack,
      beq_eq_false_iff_ne, ne_eq]
    omega
  · intro e h p hh hp0 hp
    simp only [Entry.setLogPointer, Entry.isAvailable, pack,
      beq_eq_false_iff_ne, ne_eq]
    omega

/-- C7 witness: at a concrete entry, a chain link to pointer 1 is
non-empty and clearing it empties it. -/
theorem entry_empty_invariants_witness :
    ((Entry.mk 0).setChainPointer 1).isAvailable = false ∧
    ((Entry.mk 0).setLogPointer 0 1).isAvailable = false ∧
    ((Entry.mk 0).isAvailable = true ↔ (Entry.mk 0).value = 0) :=
  ⟨entry_empty_invariants.2.2.2.1 (Entry.mk 0) 1 (by decide) (by decide),
   entry_empty_invariants.2.2.2.2 (Entry.mk 0) 0 1 (by decide) (by decide) (by decide),
   entry_empty_invariants.1 (Entry.mk 0)⟩

/-! ## Performance-histogram theorems -/

/-- C6: `storeSample s` computes `bin = s / BIN_WIDTH` with
`BIN_WIDTH = 10`, increments `binOverflows` when `bin ≥ NBINS` and
`bins[bin]` otherwise, updates `min` and `max` in both cases; a fresh
distribution has `min = 2^64 - 1`, `max = 0`, all counters zero; and the
sample `NBINS * BIN_WIDTH + 40` increments `binOverflows`. -/
theorem storeSample_histogram :
    BIN_WIDTH = 10 ∧
    (PerfDistribution.init.min = 2 ^ 64 - 1 ∧ PerfDistribution.init.max = 0 ∧
      PerfDistribution.init.binOverflows = 0 ∧
      ∀ i, PerfDistribution.init.bins i = 0) ∧
    (∀ (d : PerfDistribution) (s : Nat),
      ((d.storeSample s).min = Nat.min d.min s ∧
        (d.storeSample s).max = Nat.max d.max s) ∧
      (NBINS ≤ s / BIN_WIDTH →
        (d.storeSample s).binOverflows = d.binOverflows + 1 ∧
        ∀ i, (d.storeSample s).bins i = d.bins i) ∧
      (s / BIN_WIDTH < NBINS →
        (d.storeSample s).binOverflows = d.binOverflows ∧
        (d.storeSample s).bins (s / BIN_WIDTH) = d.bins (s / BIN_WIDTH) + 1 ∧
        ∀ i, i ≠ s / BIN_WIDTH → (d.storeSample s).bins i = d.bins i)) ∧
    (∀ d : PerfDistribution,
      (d.storeSample (NBINS * BIN_WIDTH + 40)).binOverflows =
        d.binOverflows + 1) := by
  refine ⟨rfl, ⟨rfl, rfl, rfl, fun _ => rfl⟩, ?_, ?_⟩
  · intro d s
    refine ⟨⟨?_, ?_⟩, ?_, ?_⟩
    · by_cases hb : NBINS ≤ s / BIN_WIDTH <;>
        simp [PerfDistribution.storeSample, hb]
    · by_cases hb : NBINS ≤ s / BIN_WIDTH <;>
        simp [PerfDistribution.storeSample, hb]
    · intro hb
      refine ⟨?_, fun i => ?_⟩ <;> simp [PerfDistribution.storeSample, hb]
    · intro hb
      have hb2 : ¬ NBINS ≤ s / BIN_WIDTH := Nat.not_le.2 hb
      refine ⟨?_, ?_, fun i hi => ?_⟩
      · simp [PerfDistribution.storeSample, hb2]
      · simp [PerfDistribution.storeSample, hb2]
      · simp [PerfDistribution.storeSample, hb2, hi]
  · intro d
    have hb : NBINS ≤ (NBINS * BIN_WIDTH + 40) / BIN_WIDTH := by
      simp [NBINS, BIN_WIDTH]
    simp [PerfDistribution.storeSample, hb]

/-- C6 witness: the concrete overflow sample `50040 = NBINS * BIN_WIDTH + 40`
falls past the last bin and bumps `binOverflows` of a fresh distribution. -/
theorem storeSample_histogram_witness :
    NBINS ≤ 50040 / BIN_WIDTH ∧
    (PerfDistribution.init.storeSample 50040).binOverflows =
      PerfDistribution.init.binOverflows + 1 :=
  ⟨by decide,
   ((storeSample_histogram.2.2.1 PerfDistribution.init 50040).2.1 (by decide)).1⟩

/-! ## Reject-rules theorems -/

/-- C4: for an absent object (`VERSION_NONEXISTENT`) the operation fails
with `OBJECT_DOESNT_EXIST` exactly when `doesntExist` is set and the
other flags never cause a failure; for a present object `exists` fails
with `OBJECT_EXISTS`, and with `exists` clear the operation fails with
`WRONG_VERSION` exactly when `versionLeGiven` applies with
`live ≤ given` or `versionNeGiven` applies with `live ≠ given`; a read
rejected by the rules reports the current live version alongside the
error status. -/
theorem rejectOperation_semantics :
    (∀ r : RejectRules, rejectOperation r VERSION_NONEXISTENT =
      (if r.doesntExist then some Status.OBJECT_DOESNT_EXIST else none)) ∧
    (∀ (r : RejectRules) (v : Nat), v ≠ VERSION_NONEXISTENT →
      (r.objectExists = true → rejectOperation r v = some Status.OBJECT_EXISTS) ∧
      (r.objectExists = false →
        (rejectOperation r v = some Status.WRONG_VERSION ↔
          (r.versionLeGiven = true ∧ v ≤ r.givenVersion) ∨
          (r.versionNeGiven = true ∧ v ≠ r.givenVersion)) ∧
        (¬ ((r.versionLeGiven = true ∧ v ≤ r.givenVersion) ∨
            (r.versionNeGiven = true ∧ v ≠ r.givenVersion)) →
          rejectOperation r v = none))) ∧
    (∀ (s : MasterState) (k : Key) (rules : RejectRules) (ver : Nat)
        (val : Value) (st : Status), s.objects k = KeyState.live ver val →
      rejectOperation rules ver = some st →
      readOp s k rules = (st, ver, none)) := by
  refine ⟨?_, ?_, ?_⟩
  · intro r
    by_cases hd : r.doesntExist = true <;>
      simp [rejectOperation, VERSION_NONEXISTENT, hd]
  · intro r v hv
    constructor
    · intro he
      simp [rejectOperation, hv, he]
    · intro he
      constructor
      · unfold rejectOperation
        simp only [if_neg hv, he, Bool.false_eq_true, if_false]
        split_ifs with h1 h2 <;> simp_all
      · intro hno
        unfold rejectOperation
        simp only [if_neg hv, he, Bool.false_eq_true, if_false]
        split_ifs with h1 h2 <;> simp_all
  · intro s k rules ver val st hlive hrej
    simp [readOp, hlive, hrej]

/-- C4 witness: an object live at version 1 read with
`versionNeGiven = true, givenVersion = 2` fails `WRONG_VERSION` and
reports version 1 (the scenario of `test_read_rejectRules`). -/
theorem rejectOperation_semantics_witness :
    readOp
      ⟨fun k => if k = (0, 0) then KeyState.live 1 42 else KeyState.free, 2⟩
      (0, 0)
      { givenVersion := 2, doesntExist := false, objectExists := false
        versionLeGiven := false, versionNeGiven := true } =
      (Status.WRONG_VERSION, 1, none) :=
  rejectOperation_semantics.2.2
    ⟨fun k => if k = (0, 0) then KeyState.live 1 42 else KeyState.free, 2⟩
    (0, 0)
    { givenVersion := 2, doesntExist := false, objectExists := false
      versionLeGiven := false, versionNeGiven := true }
    1 42 Status.WRONG_VERSION (by decide) (by decide)

/-! ## Remove theorems -/

/-- Default rules reject nothing at any version. -/
theorem rejectOperation_default (v : Nat) :
    rejectOperation defaultRejectRules v = none := by
  by_cases hv : v = VERSION_NONEXISTENT <;>
    simp [rejectOperation, defaultRejectRules, hv]

/-- C9: after an unconditional `remove`, a `read` of the key fails with
`OBJECT_DOESNT_EXIST`; and an unconditional `remove` of a key holding no
live object succeeds and returns `VERSION_NONEXISTENT`. -/
theorem remove_then_read_semantics :
    (∀ (s : MasterState) (k : Key),
      readOp (removeOp s k defaultRejectRules).1 k defaultRejectRules =
        (Status.OBJECT_DOESNT_EXIST, VERSION_NONEXISTENT, none)) ∧
    (∀ (s : MasterState) (k : Key),
      (∀ ver val, s.objects k ≠ KeyState.live ver val) →
      removeOp s k defaultRejectRules = (s, Status.OK, VERSION_NONEXISTENT)) := by
  constructor
  · intro s k
    cases hobj : s.objects k <;>
      simp [removeOp, readOp, rejectOperation_default, hobj,
        MasterState.setKey, VERSION_NONEXISTENT]
  · intro s k hno
    cases hobj : s.objects k with
    | live ver val => exact absurd hobj (hno ver val)
    | free => simp [removeOp, rejectOperation_default, hobj, VERSION_NONEXISTENT]
    | dead ver => simp [removeOp, rejectOperation_default, hobj, VERSION_NONEXISTENT]

/-- C9 witness: removing the never-written key `(0, 1)` on a fresh master
succeeds with the sentinel version, and reading after a remove fails. -/
theorem remove_then_read_semantics_witness :
    removeOp initialMaster (0, 1) defaultRejectRules =
      (initialMaster, Status.OK, VERSION_NONEXISTENT) ∧
    readOp (removeOp initialMaster (0, 1) defaultRejectRules).1 (0, 1)
        defaultRejectRules =
      (Status.OBJECT_DOESNT_EXIST, VERSION_NONEXISTENT, none) :=
  ⟨remove_then_read_semantics.2 initialMaster (0, 1)
     (fun ver val => by simp [initialMaster]),
   remove_then_read_semantics.1 initialMaster (0, 1)⟩

/-! ## Replay version-dominance theorems -/

/-- C1: applying one recovered record through `recoverSegment` follows
the version-dominance table: a recovered object replaces a present object
or tombstone exactly when strictly newer; a recovered tombstone replaces
a present object exactly when its version is greater or equal and a
present tombstone exactly when strictly newer; with nothing present the
record is inserted; other keys are untouched. -/
theorem recoverSegment_version_dominance :
    ∀ (m : RecoveryMap) (tbl oid ver : Nat) (v : Value),
      (∀ pver pv, m (tbl, oid) = some (RecEntry.object pver pv) →
        recoverSegment m [SegRecord.object tbl oid ver v] (tbl, oid) =
          (if pver < ver then some (RecEntry.object ver v)
           else some (RecEntry.object pver pv))) ∧
      (∀ pver, m (tbl, oid) = some (RecEntry.tombstone pver) →
        recoverSegment m [SegRecord.object tbl oid ver v] (tbl, oid) =
          (if pver < ver then some (RecEntry.object ver v)
           else some (RecEntry.tombstone pver))) ∧
      (m (tbl, oid) = none →
        recoverSegment m [SegRecord.object tbl oid ver v] (tbl, oid) =
          some (RecEntry.object ver v)) ∧
      (∀ pver pv, m (tbl, oid) = some (RecEntry.object pver pv) →
        recoverSegment m [SegRecord.tombstone tbl oid ver] (tbl, oid) =
          (if pver ≤ ver then some (RecEntry.tombstone ver)
           else some (RecEntry.object pver pv))) ∧
      (∀ pver, m (tbl, oid) = some (RecEntry.tombstone pver) →
        recoverSegment m [SegRecord.tombstone tbl oid ver] (tbl, oid) =
          (if pver < ver then some (RecEntry.tombstone ver)
           else some (RecEntry.tombstone pver))) ∧
      (m (tbl, oid) = none →
        recoverSegment m [SegRecord.tombstone tbl oid ver] (tbl, oid) =
          some (RecEntry.tombstone ver)) ∧
      (∀ k2 : Key, k2 ≠ (tbl, oid) →
        recoverSegment m [SegRecord.object tbl oid ver v] k2 = m k2 ∧
        recoverSegment m [SegRecord.tombstone tbl oid ver] k2 = m k2) := by
  intro m tbl oid ver v
  refine ⟨?_, ?_, ?_, ?_, ?_, ?_, ?_⟩
  · intro pver pv hm
    simp only [recoverSegment, List.foldl, applyRecovered, hm]
    split_ifs <;> simp [hm]
  · intro pver hm
    simp only [recoverSegment, List.foldl, applyRecovered, hm]
    split_ifs <;> simp [hm]
  · intro hm
    simp [recoverSegment, applyRecovered, hm]
  · intro pver pv hm
    simp only [recoverSegment, List.foldl, applyRecovered, hm]
    split_ifs <;> simp [hm]
  · intro pver hm
    simp only [recoverSegment, List.foldl, applyRecovered, hm]
    split_ifs <;> simp [hm]
  · intro hm
    simp [recoverSegment, applyRecovered, hm]
  · intro k2 hk2
    constructor
    · simp only [recoverSegment, List.foldl, applyRecovered]
      cases hm : m (tbl, oid) with
      | none => simp [hk2]
      | some e =>
        cases e with
        | object pver pv => by_cases hlt : pver < ver <;> simp [hlt, hk2]
        | tombstone pver => by_cases hlt : pver < ver <;> simp [hlt, hk2]
    · simp only [recoverSegment, List.foldl, applyRecovered]
      cases hm : m (tbl, oid) with
      | none => simp [hk2]
      | some e =>
        cases e with
        | object pver pv => by_cases hle : pver ≤ ver <;> simp [hle, hk2]
        | tombstone pver => by_cases hlt : pver < ver <;> simp [hlt, hk2]

/-- C1 witness: a recovered tombstone at version 5 does not displace a
present tombstone of equal version, and a recovered object lands in an
empty slot. -/
theorem recoverSegment_version_dominance_witness :
    recoverSegment
        (fun k => if k = ((0, 1) : Key) then some (RecEntry.tombstone 5) else none)
        [SegRecord.tombstone 0 1 5] (0, 1) = some (RecEntry.tombstone 5) ∧
    recoverSegment (fun _ => none) [SegRecord.object 0 2 1 7] (0, 2) =
      some (RecEntry.object 1 7) := by
  constructor
  · have h := (recoverSegment_version_dominance
      (fun k => if k = ((0, 1) : Key) then some (RecEntry.tombstone 5) else none)
      0 1 5 0).2.2.2.2.1 5 (by decide)
    simpa using h
  · exact (recoverSegment_version_dominance (fun _ => none) 0 2 1 7).2.2.1 rfl

/-! ## Recovery success-criterion theorems -/

/-- C2: `detectSegmentRecoveryFailure` accepts exactly the replica lists
in which every entry's segment id also appears on an entry whose status
reached `ok`, and every other list is rejected with
`SEGMENT_RECOVERY_FAILED`. -/
theorem detectSegmentRecoveryFailure_iff :
    ∀ backups : List (Nat × RecReq),
      (detectSegmentRecoveryFailure backups = Except.ok () ↔
        ∀ e ∈ backups, (e.1, RecReq.ok) ∈ backups) ∧
      (detectSegmentRecoveryFailure backups = Except.ok () ∨
        detectSegmentRecoveryFailure backups =
          Except.error Status.SEGMENT_RECOVERY_FAILED) := by
  intro backups
  constructor
  · unfold detectSegmentRecoveryFailure
    dsimp only
    split_ifs with hall
    · simp only [true_iff]
      intro e he
      simp only [List.all_eq_true] at hall
      have hc : e.1 ∈ (backups.filter fun x => x.2 == RecReq.ok).map Prod.fst :=
        List.elem_iff.1 (hall e he)
      simp only [List.mem_map, List.mem_filter, beq_iff_eq] at hc
      obtain ⟨x, ⟨hxmem, hxok⟩, hxid⟩ := hc
      obtain ⟨x1, x2⟩ := x
      simp only at hxok hxid
      subst hxid
      subst hxok
      exact hxmem
    · simp only [false_iff]
      intro hcov
      apply hall
      simp only [List.all_eq_true]
      intro e he
      refine List.elem_iff.2 ?_
      simp only [List.mem_map, List.mem_filter, beq_iff_eq]
      exact ⟨(e.1, RecReq.ok), ⟨hcov e he, rfl⟩, rfl⟩
  · unfold detectSegmentRecoveryFailure
    dsimp only
    split_ifs <;> simp

/-- C2 witness: the two concrete replica lists of
`test_detectSegmentRecoveryFailure_success` and `_failure`: ids 87, 88,
89 all reach `ok` despite one failed replica of 87, while a list whose
segment 87 never reaches `ok` is rejected. -/
theorem detectSegmentRecoveryFailure_iff_witness :
    detectSegmentRecoveryFailure
        [(87, RecReq.failed), (88, RecReq.ok), (89, RecReq.ok),
         (88, RecReq.ok), (87, RecReq.ok)] = Except.ok () ∧
    detectSegmentRecoveryFailure [(87, RecReq.failed), (88, RecReq.ok)] =
      Except.error Status.SEGMENT_RECOVERY_FAILED := by
  constructor
  · exact (detectSegmentRecoveryFailure_iff
      [(87, RecReq.failed), (88, RecReq.ok), (89, RecReq.ok),
       (88, RecReq.ok), (87, RecReq.ok)]).1.2 (by decide)
  · rcases (detectSegmentRecoveryFailure_iff
      [(87, RecReq.failed), (88, RecReq.ok)]).2 with h | h
    · exact absurd ((detectSegmentRecoveryFailure_iff
        [(87, RecReq.failed), (88, RecReq.ok)]).1.1 h) (by decide)
    · exact h

/-! ## Service-manager theorems -/

/-- With no services registered, `handleRpc` queues the request on
`extraRpcs` and sends no reply, whatever the request looks like. -/
theorem handleRpc_count_zero (s : SMState) (rpc : Rpc) (hwf : smWF s)
    (h0 : s.serviceCount = 0) :
    handleRpc s rpc = ({ s with extraRpcs := s.extraRpcs ++ [rpc] },
      HandleResult.queuedExtra) := by
  cases hh : rpc.header with
  | none => simp [handleRpc, hh, handleUnknownService, h0]
  | some svc =>
    by_cases hm : MAX_SERVICE < svc <;>
      simp [handleRpc, hh, hm, hwf h0 svc, handleUnknownService, h0]

/-- C10: when `serviceCount == 0`, every incoming RPC — including one
with no header or an unknown service — is queued on `extraRpcs` with no
reply; the `MESSAGE_TOO_SHORT`/`SERVICE_NOT_AVAILABLE` error replies can
only be produced with at least one registered service; and the
constructor and `addService` maintain the well-formedness this relies
on. -/
theorem handleRpc_zero_services :
    (∀ (s : SMState) (rpc : Rpc), smWF s → s.serviceCount = 0 →
      handleRpc s rpc = ({ s with extraRpcs := s.extraRpcs ++ [rpc] },
        HandleResult.queuedExtra)) ∧
    (∀ (s : SMState) (rpc : Rpc) (st : Status), smWF s →
      (handleRpc s rpc).2 = HandleResult.replied st → 1 ≤ s.serviceCount) ∧
    smWF initServiceManager ∧
    (∀ (s : SMState) (svc : Nat) (info : ServiceInfo),
      smWF (addService s svc info)) := by
  refine ⟨fun s rpc hwf h0 => handleRpc_count_zero s rpc hwf h0, ?_, ?_, ?_⟩
  · intro s rpc st hwf hr
    by_contra hlt
    have h0 : s.serviceCount = 0 := by omega
    rw [handleRpc_count_zero s rpc hwf h0] at hr
    simp at hr
  · intro h0 i
    rfl
  · intro s svc info h0
    simp [addService] at h0

/-- C10 witness: on a fresh manager, a header-less RPC and an
unknown-service RPC are both queued on `extraRpcs` with no reply. -/
theorem handleRpc_zero_services_witness :
    handleRpc initServiceManager ⟨none, 7⟩ =
      ({ initServiceManager with extraRpcs := [⟨none, 7⟩] },
        HandleResult.queuedExtra) ∧
    handleRpc initServiceManager ⟨some 2, 8⟩ =
      ({ initServiceManager with extraRpcs := [⟨some 2, 8⟩] },
        HandleResult.queuedExtra) :=
  ⟨handleRpc_zero_services.1 initServiceManager ⟨none, 7⟩ (fun _ _ => rfl) rfl,
   handleRpc_zero_services.1 initServiceManager ⟨some 2, 8⟩ (fun _ _ => rfl) rfl⟩

/-! ## Write/version-monotonicity theorems -/

/-- Reject rules never produce the success status. -/
theorem rejectOperation_ne_OK (rules : RejectRules) (v : Nat) :
    rejectOperation rules v ≠ some Status.OK := by
  unfold rejectOperation
  split_ifs <;> simp

/-- A write never decreases the table's version allocator. -/
theorem writeOp_nextVersion_mono (s : MasterState) (k : Key) (v : Value)
    (rules : RejectRules) :
    s.nextVersion ≤ (writeOp s k v rules).1.nextVersion := by
  unfold writeOp
  cases hobj : s.objects k with
  | live ver val => cases hrej : rejectOperation rules ver <;> simp [hrej]
  | dead ver =>
    cases hrej : rejectOperation rules VERSION_NONEXISTENT <;> simp [hrej]
  | free =>
    cases hrej : rejectOperation rules VERSION_NONEXISTENT <;> simp [hrej]

/-- A remove leaves the version allocator unchanged. -/
theorem removeOp_nextVersion (s : MasterState) (k : Key) (rules : RejectRules) :
    (removeOp s k rules).1.nextVersion = s.nextVersion := by
  unfold removeOp
  cases hobj : s.objects k with
  | live ver val => cases hrej : rejectOperation rules ver <;> simp [hrej]
  | dead ver =>
    cases hrej : rejectOperation rules VERSION_NONEXISTENT <;> simp [hrej]
  | free =>
    cases hrej : rejectOperation rules VERSION_NONEXISTENT <;> simp [hrej]

/-- Any client operation keeps the version allocator from decreasing. -/
theorem masterStep_nextVersion_mono (s : MasterState) (op : ClientOp) :
    s.nextVersion ≤ (masterStep s op).1.nextVersion := by
  cases op with
  | write k v rules => exact writeOp_nextVersion_mono s k v rules
  | remove k rules => exact (removeOp_nextVersion s k rules).ge

/-- A write never decreases the stored version of any key. -/
theorem writeOp_keyVer_mono (s : MasterState) (k2 : Key) (v : Value)
    (rules : RejectRules) (k : Key) :
    (s.objects k).ver ≤ ((writeOp s k2 v rules).1.objects k).ver := by
  unfold writeOp
  by_cases hk : k = k2
  · subst hk
    cases hobj : s.objects k with
    | live ver val =>
      cases hrej : rejectOperation rules ver <;>
        simp [hrej, MasterState.setKey, hobj, KeyState.ver]
    | dead ver =>
      cases hrej : rejectOperation rules VERSION_NONEXISTENT <;>
        simp [hrej, MasterState.setKey, hobj, KeyState.ver]
    | free =>
      cases hrej : rejectOperation rules VERSION_NONEXISTENT <;>
        simp [hrej, MasterState.setKey, hobj, KeyState.ver]
  · cases hobj : s.objects k2 with
    | live ver val =>
      cases hrej : rejectOperation rules ver <;>
        simp [hrej, MasterState.setKey, hk]
    | dead ver =>
      cases hrej : rejectOperation rules VERSION_NONEXISTENT <;>
        simp [hrej, MasterState.setKey, hk]
    | free =>
      cases hrej : rejectOperation rules VERSION_NONEXISTENT <;>
        simp [hrej, MasterState.setKey, hk]

/-- A remove never decreases the stored version of any key (the tombstone
keeps the removed object's version). -/
theorem removeOp_keyVer_mono (s : MasterState) (k2 : Key) (rules : RejectRules)
    (k : Key) :
    (s.objects k).ver ≤ ((removeOp s k2 rules).1.objects k).ver := by
  unfold removeOp
  by_cases hk : k = k2
  · subst hk
    cases hobj : s.objects k with
    | live ver val =>
      cases hrej : rejectOperation rules ver <;>
        simp [hrej, MasterState.setKey, hobj, KeyState.ver]
    | dead ver =>
      cases hrej : rejectOperation rules VERSION_NONEXISTENT <;>
        simp [hrej, MasterState.setKey, hobj, KeyState.ver]
    | free =>
      cases hrej : rejectOperation rules VERSION_NONEXISTENT <;>
        simp [hrej, MasterState.setKey, hobj, KeyState.ver]
  · cases hobj : s.objects k2 with
    | live ver val =>
      cases hrej : rejectOperation rules ver <;>
        simp [hrej, MasterState.setKey, hk]
    | dead ver =>
      cases hrej : rejectOperation rules VERSION_NONEXISTENT <;>
        simp [hrej, MasterState.setKey, hk]
    | free =>
      cases hrej : rejectOperation rules VERSION_NONEXISTENT <;>
        simp [hrej, MasterState.setKey, hk]

/-- Any client operation keeps every key's stored version from
decreasing. -/
theorem masterStep_keyVer_mono (s : MasterState) (op : ClientOp) (k : Key) :
    (s.objects k).ver ≤ ((masterStep s op).1.objects k).ver := by
  cases op with
  | write k2 v rules => exact writeOp_keyVer_mono s k2 v rules k
  | remove k2 rules => exact removeOp_keyVer_mono s k2 rules k

/-- A successful write emits a version strictly above the key's stored
version, and the key's new stored version is the emitted one. -/
theorem writeOp_success (s : MasterState) (k : Key) (v : Value)
    (rules : RejectRules) (hok : (writeOp s k v rules).2.1 = Status.OK)
    (h1 : 1 ≤ s.nextVersion) :
    (s.objects k).ver < (writeOp s k v rules).2.2 ∧
    ((writeOp s k v rules).1.objects k).ver = (writeOp s k v rules).2.2 := by
  unfold writeOp at hok ⊢
  cases hobj : s.objects k with
  | live ver val =>
    cases hrej : rejectOperation rules ver with
    | some st =>
      simp only [hobj, hrej] at hok
      exact absurd (hrej.trans (congrArg some hok)) (rejectOperation_ne_OK rules ver)
    | none => simp [hobj, hrej, MasterState.setKey, KeyState.ver]
  | dead ver =>
    cases hrej : rejectOperation rules VERSION_NONEXISTENT with
    | some st =>
      simp only [hobj, hrej] at hok
      exact absurd (hrej.trans (congrArg some hok))
        (rejectOperation_ne_OK rules VERSION_NONEXISTENT)
    | none => simp [hobj, hrej, MasterState.setKey, KeyState.ver]
  | free =>
    cases hrej : rejectOperation rules VERSION_NONEXISTENT with
    | some st =>
      simp only [hobj, hrej] at hok
      exact absurd (hrej.trans (congrArg some hok))
        (rejectOperation_ne_OK rules VERSION_NONEXISTENT)
    | none =>
      simp [hobj, hrej, MasterState.setKey, KeyState.ver]
      omega

/-- Along any trace, the versions of the successful writes to a key all
exceed the key's starting stored version and are strictly increasing. -/
theorem writeVersions_chain (ops : List ClientOp) :
    ∀ (s : MasterState) (k : Key), 1 ≤ s.nextVersion →
      (∀ x ∈ writeVersions s ops k, (s.objects k).ver < x) ∧
      List.Pairwise (· < ·) (writeVersions s ops k) := by
  induction ops with
  | nil => intro s k _; simp [writeVersions]
  | cons op rest ih =>
    intro s k h1
    have h1n : 1 ≤ (masterStep s op).1.nextVersion :=
      le_trans h1 (masterStep_nextVersion_mono s op)
    obtain ⟨ihb, ihp⟩ := ih (masterStep s op).1 k h1n
    cases op with
    | remove k2 rules =>
      simp only [writeVersions]
      exact ⟨fun x hx => lt_of_le_of_lt
        (masterStep_keyVer_mono s (.remove k2 rules) k) (ihb x hx), ihp⟩
    | write k2 v rules =>
      simp only [writeVersions]
      by_cases hc : k2 = k ∧ (masterStep s (.write k2 v rules)).2.1 = Status.OK
      · rw [if_pos hc]
        obtain ⟨hk2, hok⟩ := hc
        subst hk2
        simp only [masterStep] at ihb ihp hok ⊢
        obtain ⟨hlt, heq⟩ := writeOp_success s k2 v rules hok h1
        have htail : ∀ x ∈ writeVersions (writeOp s k2 v rules).1
            rest k2, (writeOp s k2 v rules).2.2 < x := by
          intro x hx
          have := ihb x hx
          rw [heq] at this
          exact this
        constructor
        · intro x hx
          rcases List.mem_cons.1 hx with hx | hx
          · exact hx ▸ hlt
          · exact hlt.trans (htail x hx)
        · exact List.pairwise_cons.2 ⟨htail, ihp⟩
      · rw [if_neg hc]
        exact ⟨fun x hx => lt_of_le_of_lt
          (masterStep_keyVer_mono s (.write k2 v rules) k) (ihb x hx), ihp⟩

/-- C8: an unconditional `write(k, v)` succeeds and a following `read(k)`
returns `v` at the written version; a second write to the same key
returns the new value on read and a strictly larger version; and along
every operation trace from a fresh master the versions emitted by the
successful writes to any key are strictly increasing — each write's
version exceeds every earlier version of that key. -/
theorem write_read_version_monotonic :
    (∀ (s : MasterState) (k : Key) (v : Value),
      (writeOp s k v defaultRejectRules).2.1 = Status.OK ∧
      readOp (writeOp s k v defaultRejectRules).1 k defaultRejectRules =
        (Status.OK, (writeOp s k v defaultRejectRules).2.2, some v)) ∧
    (∀ (s : MasterState) (k : Key) (v1 v2 : Value),
      readOp (writeOp (writeOp s k v1 defaultRejectRules).1 k v2
          defaultRejectRules).1 k defaultRejectRules =
        (Status.OK,
         (writeOp (writeOp s k v1 defaultRejectRules).1 k v2
           defaultRejectRules).2.2, some v2) ∧
      (writeOp s k v1 defaultRejectRules).2.2 <
        (writeOp (writeOp s k v1 defaultRejectRules).1 k v2
          defaultRejectRules).2.2) ∧
    (∀ (ops : List ClientOp) (k : Key),
      List.Pairwise (· < ·) (writeVersions initialMaster ops k)) := by
  refine ⟨?_, ?_, ?_⟩
  · intro s k v
    cases hobj : s.objects k <;>
      simp [writeOp, readOp, rejectOperation_default, hobj, MasterState.setKey]
  · intro s k v1 v2
    cases hobj : s.objects k <;>
      simp [writeOp, readOp, rejectOperation_default, hobj, MasterState.setKey]
  · intro ops k
    exact (writeVersions_chain ops initialMaster k (Nat.le_refl 1)).2

/-! ## Recovery fetch-scheduler theorems -/

/-- A list with no `ok` entry reports no segment id as recovered. -/
theorem sidOK_eq_false_of_no_ok {l : List ReplicaEntry}
    (h : ∀ e ∈ l, e.status ≠ FetchStatus.ok) (sid : Nat) :
    sidOK l sid = false := by
  simp only [sidOK, List.any_eq_false]
  intro e he
  simp [h e he]

/-- Membership in the in-flight segment-id list. -/
theorem mem_inFlightSids {l : List ReplicaEntry} {s : Nat} :
    s ∈ inFlightSids l ↔
      ∃ e ∈ l, e.status = FetchStatus.inFlight ∧ e.segmentId = s := by
  simp only [inFlightSids, List.mem_map, List.mem_filter, beq_iff_eq]
  constructor
  · rintro ⟨e, ⟨he, hs⟩, rfl⟩
    exact ⟨e, he, hs, rfl⟩
  · rintro ⟨e, he, hs, rfl⟩
    exact ⟨e, ⟨he, hs⟩, rfl⟩

/-- The fan-out never produces an `ok` entry. -/
theorem fanOutWalk_no_ok (ac : Nat → Bool) :
    ∀ (l : List ReplicaEntry) (started : List Nat) (slots : Nat),
      (∀ e ∈ l, e.status ≠ FetchStatus.ok) →
      ∀ e ∈ fanOutWalk ac started slots l, e.status ≠ FetchStatus.ok := by
  intro l
  induction l with
  | nil =>
    intro started slots h e he
    simp [fanOutWalk] at he
  | cons x rest ih =>
    intro started slots h e he
    have hr : ∀ e2 ∈ rest, e2.status ≠ FetchStatus.ok :=
      fun e2 he2 => h e2 (List.mem_cons_of_mem x he2)
    simp only [fanOutWalk] at he
    split_ifs at he with h0 hcand hloc
    · exact h e he
    · rcases List.mem_cons.1 he with rfl | he2
      · simp
      · exact ih (x.segmentId :: started) (slots - 1) hr e he2
    · rcases List.mem_cons.1 he with rfl | he2
      · simp
      · exact ih started slots hr e he2
    · rcases List.mem_cons.1 he with rfl | he2
      · exact h e (List.mem_cons_self e rest)
      · exact ih started slots hr e he2

/-- On an all-pending list, the fan-out starts at most one fetch per
distinct segment id, and only for ids it was allowed to start. -/
theorem fanOutWalk_inFlight_nodup (ac : Nat → Bool) :
    ∀ (l : List ReplicaEntry) (started : List Nat) (slots : Nat),
      (∀ e ∈ l, e.status = FetchStatus.pending) →
      (∀ e ∈ fanOutWalk ac started slots l,
        e.status = FetchStatus.inFlight →
          ac e.segmentId = false ∧ e.segmentId ∉ started) ∧
      (inFlightSids (fanOutWalk ac started slots l)).Nodup := by
  intro l
  induction l with
  | nil =>
    intro started slots _
    exact ⟨fun e he => by simp [fanOutWalk] at he,
      by simp [fanOutWalk, inFlightSids]⟩
  | cons x rest ih =>
    intro started slots hp
    have hpr : ∀ e ∈ rest, e.status = FetchStatus.pending :=
      fun e he => hp e (List.mem_cons_of_mem x he)
    have hpend_noif : ∀ (l2 : List ReplicaEntry),
        (∀ e ∈ l2, e.status = FetchStatus.pending) → inFlightSids l2 = [] := by
      intro l2 h2
      simp only [inFlightSids, List.map_eq_nil_iff, List.filter_eq_nil_iff]
      intro e he
      simp [h2 e he]
    simp only [fanOutWalk]
    split_ifs with h0 hcand hloc
    · refine ⟨fun e he hif => absurd (hp e he) (by simp [hif]), ?_⟩
      · rw [hpend_noif (x :: rest) hp]
        exact List.nodup_nil
    · obtain ⟨ih1, ih2⟩ :=
        ih (x.segmentId :: started) (slots - 1) hpr
      constructor
      · intro e he hif
        rcases List.mem_cons.1 he with rfl | he2
        · exact ⟨hcand.2.1, hcand.2.2⟩
        · obtain ⟨hac, hni⟩ := ih1 e he2 hif
          exact ⟨hac, fun hmem => hni (List.mem_cons_of_mem _ hmem)⟩
      · have hhd : inFlightSids ({ x with status := FetchStatus.inFlight } ::
            fanOutWalk ac (x.segmentId :: started) (slots - 1) rest) =
            x.segmentId ::
              inFlightSids (fanOutWalk ac (x.segmentId :: started)
                (slots - 1) rest) := by
          simp [inFlightSids]
        rw [hhd]
        refine List.nodup_cons.2 ⟨?_, ih2⟩
        intro hmem
        obtain ⟨e, he, hif, hsid⟩ := mem_inFlightSids.1 hmem
        obtain ⟨_, hni⟩ := ih1 e he hif
        exact hni (hsid ▸ List.mem_cons_self x.segmentId started)
    · obtain ⟨ih1, ih2⟩ := ih started slots hpr
      constructor
      · intro e he hif
        rcases List.mem_cons.1 he with rfl | he2
        · simp at hif
        · exact ih1 e he2 hif
      · have hhd : inFlightSids ({ x with status := FetchStatus.failed } ::
            fanOutWalk ac started slots rest) =
            inFlightSids (fanOutWalk ac started slots rest) := by
          simp [inFlightSids]
        rw [hhd]
        exact ih2
    · obtain ⟨ih1, ih2⟩ := ih started slots hpr
      constructor
      · intro e he hif
        rcases List.mem_cons.1 he with rfl | he2
        · exact absurd (hp e (List.mem_cons_self e rest)) (by simp [hif])
        · exact ih1 e he2 hif
      · have hhd : inFlightSids (x :: fanOutWalk ac started slots rest) =
            inFlightSids (fanOutWalk ac started slots rest) := by
          simp [inFlightSids, hp x (List.mem_cons_self x rest)]
        rw [hhd]
        exact ih2

/-- After a transitive success every entry of the segment is `ok`. -/
theorem completeSuccess_same_sid (l : List ReplicaEntry) (sid : Nat) :
    ∀ e ∈ completeSuccess l sid, e.segmentId = sid →
      e.status = FetchStatus.ok := by
  intro e he hs
  simp only [completeSuccess, List.mem_map] at he
  obtain ⟨e0, he0, rfl⟩ := he
  by_cases h0 : e0.segmentId = sid
  · simp [h0]
  · rw [if_neg h0] at hs ⊢
    exact absurd hs h0

/-- A transitive success starts no fetch: every in-flight entry of the
new list was already in flight, for a different segment. -/
theorem completeSuccess_inFlight (l : List ReplicaEntry) (sid : Nat) :
    ∀ e ∈ completeSuccess l sid, e.status = FetchStatus.inFlight →
      e ∈ l ∧ e.segmentId ≠ sid := by
  intro e he hif
  simp only [completeSuccess, List.mem_map] at he
  obtain ⟨e0, he0, rfl⟩ := he
  by_cases h0 : e0.segmentId = sid
  · rw [if_pos h0] at hif
    simp at hif
  · rw [if_neg h0] at hif ⊢
    exact ⟨he0, h0⟩

/-- An `ok` segment id after a transitive success was `ok` before or is
the succeeding segment. -/
theorem completeSuccess_ok_sources (l : List ReplicaEntry) (sid s2 : Nat)
    (h : sidOK (completeSuccess l sid) s2 = true) :
    sidOK l s2 = true ∨ s2 = sid := by
  simp only [sidOK, completeSuccess, List.any_eq_true, List.mem_map] at h
  obtain ⟨e, ⟨e0, he0, rfl⟩, hprop⟩ := h
  by_cases h0 : e0.segmentId = sid
  · rw [if_pos h0] at hprop
    right
    simp only [Bool.and_eq_true, beq_iff_eq] at hprop
    exact hprop.1.symm.trans h0
  · rw [if_neg h0] at hprop
    left
    exact List.any_eq_true.2 ⟨e0, he0, hprop⟩

/-- Starting one replacement fetch never changes which segment ids are
`ok`. -/
theorem startFirst_ok_statuses (okCheck : Nat → Bool) :
    ∀ (l : List ReplicaEntry) (sid2 : Nat),
      sidOK (startFirst okCheck l).1 sid2 = sidOK l sid2 := by
  intro l
  induction l with
  | nil => intro sid2; rfl
  | cons e rest ih =>
    intro sid2
    simp only [startFirst]
    split_ifs with hc hl
    · rw [sidOK, sidOK, List.any_cons, List.any_cons, hc.1]
      exact rfl
    · have h2 := ih sid2
      rw [sidOK, sidOK] at h2
      rw [sidOK, sidOK, List.any_cons, List.any_cons, hc.1, h2]
      exact rfl
    · have h2 := ih sid2
      rw [sidOK, sidOK] at h2
      rw [sidOK, sidOK, List.any_cons, List.any_cons, h2]

/-- Every in-flight entry after a replacement start was already in
flight, or its segment id was not recovered when the start began. -/
theorem startFirst_inFlight_sources (okCheck : Nat → Bool) :
    ∀ (l : List ReplicaEntry), ∀ e ∈ (startFirst okCheck l).1,
      e.status = FetchStatus.inFlight →
        e ∈ l ∨ okCheck e.segmentId = false := by
  intro l
  induction l with
  | nil => intro e he; simp [startFirst] at he
  | cons x rest ih =>
    intro e he hif
    simp only [startFirst] at he
    split_ifs at he with hc hl
    · rcases List.mem_cons.1 he with rfl | he2
      · right
        exact hc.2
      · exact Or.inl (List.mem_cons_of_mem x he2)
    · rcases List.mem_cons.1 he with rfl | he2
      · simp at hif
      · rcases ih e he2 hif with hmem | hok
        · exact Or.inl (List.mem_cons_of_mem x hmem)
        · exact Or.inr hok
    · rcases List.mem_cons.1 he with rfl | he2
      · exact Or.inl (List.mem_cons_self e rest)
      · rcases ih e he2 hif with hmem | hok
        · exact Or.inl (List.mem_cons_of_mem x hmem)
        · exact Or.inr hok

/-- With reachable locators, starting a replacement fetch either finds no
candidate and changes nothing, or turns exactly the first `PENDING`
not-yet-recovered entry `IN_FLIGHT`. -/
theorem startFirst_first_candidate (okCheck : Nat → Bool) :
    ∀ l : List ReplicaEntry, (∀ x ∈ l, x.locatorOk = true) →
      ((∀ x ∈ l,
          ¬ (x.status = FetchStatus.pending ∧ okCheck x.segmentId = false)) ∧
        startFirst okCheck l = (l, false)) ∨
      (∃ a x b, l = a ++ x :: b ∧
        (∀ y ∈ a,
          ¬ (y.status = FetchStatus.pending ∧ okCheck y.segmentId = false)) ∧
        x.status = FetchStatus.pending ∧ okCheck x.segmentId = false ∧
        (startFirst okCheck l).1 =
          a ++ { x with status := FetchStatus.inFlight } :: b) := by
  intro l
  induction l with
  | nil => intro _; exact Or.inl ⟨by simp, rfl⟩
  | cons e rest ih =>
    intro hloc
    have hlocr : ∀ x ∈ rest, x.locatorOk = true :=
      fun x hx => hloc x (List.mem_cons_of_mem e hx)
    by_cases hc : e.status = FetchStatus.pending ∧ okCheck e.segmentId = false
    · right
      refine ⟨[], e, rest, rfl, by simp, hc.1, hc.2, ?_⟩
      simp [startFirst, hc, hloc e (List.mem_cons_self e rest)]
    · rcases ih hlocr with ⟨hall, heq⟩ | ⟨a, x, b, hsplit, ha, hx1, hx2, heq⟩
      · left
        constructor
        · intro x hx
          rcases List.mem_cons.1 hx with rfl | hx2
          · exact hc
          · exact hall x hx2
        · simp [startFirst, hc, heq]
      · right
        refine ⟨e :: a, x, b, by simp [hsplit], ?_, hx1, hx2, ?_⟩
        · intro y hy
          rcases List.mem_cons.1 hy with rfl | hy2
          · exact hc
          · exact ha y hy2
        · simp only [startFirst, hc, if_false, if_neg hc]
          simp [heq]

/-- Marking a non-`ok` entry `FAILED` changes no segment id's `ok`
status. -/
theorem markFirstFailed_ok_statuses (p : ReplicaEntry → Bool)
    (hp : ∀ e, p e = true → e.status ≠ FetchStatus.ok) :
    ∀ (l : List ReplicaEntry) (sid2 : Nat),
      sidOK (markFirstFailed p l) sid2 = sidOK l sid2 := by
  intro l
  induction l with
  | nil => intro sid2; rfl
  | cons e rest ih =>
    intro sid2
    simp only [markFirstFailed]
    split_ifs with hc
    · have h3 : (e.status == FetchStatus.ok) = false := by
        simp [hp e hc]
      rw [sidOK, sidOK, List.any_cons, List.any_cons, h3]
      exact rfl
    · have h2 := ih sid2
      rw [sidOK, sidOK] at h2
      rw [sidOK, sidOK, List.any_cons, List.any_cons, h2]

/-- Marking an entry `FAILED` introduces no in-flight entry. -/
theorem markFirstFailed_inFlight_sources (p : ReplicaEntry → Bool) :
    ∀ (l : List ReplicaEntry), ∀ e ∈ markFirstFailed p l,
      e.status = FetchStatus.inFlight → e ∈ l := by
  intro l
  induction l with
  | nil => intro e he; simp [markFirstFailed] at he
  | cons x rest ih =>
    intro e he hif
    simp only [markFirstFailed] at he
    split_ifs at he with hc
    · rcases List.mem_cons.1 he with rfl | he2
      · simp at hif
      · exact List.mem_cons_of_mem x he2
    · rcases List.mem_cons.1 he with rfl | he2
      · exact List.mem_cons_self e rest
      · exact List.mem_cons_of_mem x (ih e he2 hif)

/-- Marking an entry `FAILED` keeps every locator flag. -/
theorem markFirstFailed_locators (p : ReplicaEntry → Bool) :
    ∀ l : List ReplicaEntry, (∀ e ∈ l, e.locatorOk = true) →
      ∀ e ∈ markFirstFailed p l, e.locatorOk = true := by
  intro l
  induction l with
  | nil => intro _ e he; simp [markFirstFailed] at he
  | cons x rest ih =>
    intro hloc e he
    have hlocr : ∀ e2 ∈ rest, e2.locatorOk = true :=
      fun e2 he2 => hloc e2 (List.mem_cons_of_mem x he2)
    simp only [markFirstFailed] at he
    split_ifs at he with hc
    · rcases List.mem_cons.1 he with rfl | he2
      · exact hloc x (List.mem_cons_self x rest)
      · exact hlocr e he2
    · rcases List.mem_cons.1 he with rfl | he2
      · exact hloc e (List.mem_cons_self e rest)
      · exact ih hlocr e he2

/-- The scheduler invariant holds after the initial fan-out: nothing is
`ok` yet, so no in-flight fetch can target a recovered segment. -/
theorem schedInv_init (K : Nat) (l : List ReplicaEntry)
    (hp : ∀ e ∈ l, e.status = FetchStatus.pending) :
    ∀ e ∈ initialFanOut K l, e.status = FetchStatus.inFlight →
      sidOK (initialFanOut K l) e.segmentId = false := by
  intro e _ _
  apply sidOK_eq_false_of_no_ok
  exact fanOutWalk_no_ok (sidActive l) l [] K
    (fun e2 he2 => by simp [hp e2 he2])

/-- A successful completion preserves the scheduler invariant. -/
theorem schedInv_success (l : List ReplicaEntry) (sid : Nat)
    (hinv : ∀ e ∈ l, e.status = FetchStatus.inFlight →
      sidOK l e.segmentId = false) :
    ∀ e ∈ completeSuccess l sid, e.status = FetchStatus.inFlight →
      sidOK (completeSuccess l sid) e.segmentId = false := by
  intro e he hif
  obtain ⟨hel, hne⟩ := completeSuccess_inFlight l sid e he hif
  rcases Bool.eq_false_or_eq_true (sidOK (completeSuccess l sid) e.segmentId)
    with h | h
  · rcases completeSuccess_ok_sources l sid e.segmentId h with h2 | h2
    · rw [hinv e hel hif] at h2
      exact absurd h2 (by simp)
    · exact absurd h2 hne
  · exact h

/-- A failed completion preserves the scheduler invariant: the
replacement fetch is only started for a not-yet-recovered segment. -/
theorem schedInv_failure (l : List ReplicaEntry) (sid : Nat)
    (hinv : ∀ e ∈ l, e.status = FetchStatus.inFlight →
      sidOK l e.segmentId = false) :
    ∀ e ∈ completeFailure l sid, e.status = FetchStatus.inFlight →
      sidOK (completeFailure l sid) e.segmentId = false := by
  intro e he hif
  have hpne : ∀ e2 : ReplicaEntry,
      (e2.segmentId == sid && e2.status == FetchStatus.inFlight) = true →
        e2.status ≠ FetchStatus.ok := by
    intro e2 h2
    simp only [Bool.and_eq_true, beq_iff_eq] at h2
    simp [h2.2]
  have hok1 : ∀ s2, sidOK (completeFailure l sid) s2 =
      sidOK (markCompletedFailed l sid) s2 :=
    fun s2 => startFirst_ok_statuses (sidOK (markCompletedFailed l sid))
      (markCompletedFailed l sid) s2
  have hok2 : ∀ s2, sidOK (markCompletedFailed l sid) s2 = sidOK l s2 :=
    fun s2 => markFirstFailed_ok_statuses _ hpne l s2
  rcases startFirst_inFlight_sources (sidOK (markCompletedFailed l sid))
      (markCompletedFailed l sid) e he hif with hel1 | hnok
  · have hel : e ∈ l := markFirstFailed_inFlight_sources _ l e hel1 hif
    rw [hok1, hok2]
    exact hinv e hel hif
  · rw [hok1]
    exact hnok

/-- The scheduler invariant holds in every reachable state. -/
theorem schedInv_reachable (K : Nat) (l : List ReplicaEntry)
    (h : SchedReachable K l) :
    ∀ e ∈ l, e.status = FetchStatus.inFlight →
      sidOK l e.segmentId = false := by
  induction h with
  | init l0 hp => exact schedInv_init K l0 hp
  | step l0 l1 _ hs ih =>
    cases hs with
    | success sid hex => exact schedInv_success l0 sid ih
    | failure sid hex => exact schedInv_failure l0 sid ih

/-- C5: the recovery fetch scheduler (a) starts at most one fetch per
distinct segment id during the initial fan-out over an all-pending
replica list; (b) on a success checks every entry of that segment off as
`OK` and starts no fetch; (c) on a failure, with reachable locators, the
replacement fetch goes to exactly the first `PENDING` entry whose segment
id is not `OK` elsewhere (or no fetch starts when there is none); and
(d) in every reachable state no fetch is in flight for a segment id that
already has an `OK` entry — no fetch is ever issued for a recovered
segment. -/
theorem recovery_fetch_scheduling :
    (∀ (K : Nat) (l : List ReplicaEntry),
      (∀ e ∈ l, e.status = FetchStatus.pending) →
      (inFlightSids (initialFanOut K l)).Nodup) ∧
    (∀ (l : List ReplicaEntry) (sid : Nat),
      (∀ e ∈ completeSuccess l sid, e.segmentId = sid →
        e.status = FetchStatus.ok) ∧
      (∀ e ∈ completeSuccess l sid, e.status = FetchStatus.inFlight →
        e ∈ l)) ∧
    (∀ (l : List ReplicaEntry) (sid : Nat), (∀ e ∈ l, e.locatorOk = true) →
      ((∀ x ∈ markCompletedFailed l sid,
          ¬ (x.status = FetchStatus.pending ∧
             sidOK (markCompletedFailed l sid) x.segmentId = false)) ∧
        completeFailure l sid = markCompletedFailed l sid) ∨
      (∃ a x b, markCompletedFailed l sid = a ++ x :: b ∧
        (∀ y ∈ a, ¬ (y.status = FetchStatus.pending ∧
          sidOK (markCompletedFailed l sid) y.segmentId = false)) ∧
        x.status = FetchStatus.pending ∧
        sidOK (markCompletedFailed l sid) x.segmentId = false ∧
        completeFailure l sid =
          a ++ { x with status := FetchStatus.inFlight } :: b)) ∧
    (∀ (K : Nat) (l : List ReplicaEntry), SchedReachable K l →
      ∀ e ∈ l, e.status = FetchStatus.inFlight →
        sidOK l e.segmentId = false) := by
  refine ⟨?_, ?_, ?_, schedInv_reachable⟩
  · intro K l hp
    exact (fanOutWalk_inFlight_nodup (sidActive l) l [] K hp).2
  · intro l sid
    exact ⟨completeSuccess_same_sid l sid, fun e he hif =>
      (completeSuccess_inFlight l sid e he hif).1⟩
  · intro l sid hloc
    have hloc1 : ∀ e ∈ markCompletedFailed l sid, e.locatorOk = true :=
      markFirstFailed_locators _ l hloc
    rcases startFirst_first_candidate (sidOK (markCompletedFailed l sid))
        (markCompletedFailed l sid) hloc1 with ⟨hall, heq⟩ | hsome
    · left
      exact ⟨hall, by rw [completeFailure, heq]⟩
    · right
      exact hsome

/-- C5 witness: on the concrete two-replica list for segment 87, the
fan-out with one channel starts exactly one fetch, and the resulting
state satisfies the no-fetch-after-OK invariant. -/
theorem recovery_fetch_scheduling_witness :
    (inFlightSids (initialFanOut 1
      [⟨87, true, FetchStatus.pending⟩, ⟨87, true, FetchStatus.pending⟩])).Nodup ∧
    (∀ e ∈ initialFanOut 1
        [⟨87, true, FetchStatus.pending⟩, ⟨87, true, FetchStatus.pending⟩],
      e.status = FetchStatus.inFlight →
        sidOK (initialFanOut 1
          [⟨87, true, FetchStatus.pending⟩, ⟨87, true, FetchStatus.pending⟩])
          e.segmentId = false) :=
  ⟨recovery_fetch_scheduling.1 1
    [⟨87, true, FetchStatus.pending⟩, ⟨87, true, FetchStatus.pending⟩]
    (by decide),
   recovery_fetch_scheduling.2.2.2 1 _
    (SchedReachable.init
      [⟨87, true, FetchStatus.pending⟩, ⟨87, true, FetchStatus.pending⟩]
      (by decide))⟩

end RAMCloud
